import Mathlib

/-!
Verification of the square-icon generator `make_square` from `make_icons.py`.

The Python function is embedded shallowly:

* an image is a record of width, height, PIL mode string and a pixel lookup;
* the Lanczos resampling filter lives in the imaging library's C core, so it
  is abstracted as a parameter `R : Resampler`; every theorem below is proved
  for an arbitrary resampler, hence in particular for Lanczos;
* the cover branch's size arithmetic (`size / w`, `w * scale`) runs on IEEE
  754 binary64 floats in Python, so it is abstracted as a parameter
  `FM : FloatModel` holding the division and multiplication the platform
  provides; `exactFM` is the exact-rational instantiation and `doubleFM` is a
  computable round-to-nearest, ties-to-even binary64 model (unbounded
  exponent, i.e. faithful to binary64 throughout the normal range used here).
  Theorems about the cover branch state only what holds for every float model
  satisfying the explicitly assumed sign or rounding-error properties, and
  counterexamples are evaluated on `doubleFM`;
* the contain branch's `thumbnail` uses floats only to pick the preserved
  aspect ratio; its rational modelling is harmless for the properties proved
  here, which hold whichever branch the comparison takes and bound the
  rounded side by the integer `size`;
* the imaging-library primitives used by `make_square` (`convert`,
  `thumbnail`, `resize`, `Image.new`, `paste`, `crop`) are modelled after
  Pillow's documented semantics, including the errors raised on degenerate
  sizes;
* the in-place mutations of the Python code are additionally modelled by a
  store-passing semantics (`makeSquareS`) over an explicit heap of buffers.
-/

/-- RGBA pixel: one value per band, as stored by PIL. -/
structure Pixel where
  r : ℕ
  g : ℕ
  b : ℕ
  a : ℕ
deriving DecidableEq

/-- The fully transparent black pixel `(0, 0, 0, 0)` used for padding. -/
def Pixel.clear : Pixel := ⟨0, 0, 0, 0⟩

/-- A decoded raster image: dimensions, PIL mode string and pixel lookup.
Only pixels at coordinates `i < width`, `j < height` are meaningful. -/
structure Img where
  width : ℕ
  height : ℕ
  mode : String
  pix : ℕ → ℕ → Pixel

/-- Observational equality of images: same dimensions, same mode and the same
pixels at every in-bounds coordinate. -/
def Img.Equiv (x y : Img) : Prop :=
  x.width = y.width ∧ x.height = y.height ∧ x.mode = y.mode ∧
    ∀ i < x.width, ∀ j < x.height, x.pix i j = y.pix i j

/-- Untyped Python-level failures raised by the imaging library on degenerate
sizes: `ZeroDivisionError` from `aspect`/`x / y` computations, `ValueError`
from `resize`/`Image.new` on non-positive target dimensions. -/
inductive PyErr where
  | zeroDivision : PyErr
  | valueError : PyErr
deriving DecidableEq

/-- An abstract resampling filter: given the source pixel lookup, the source
dimensions and the target dimensions, it produces the target pixel lookup.
Pillow's `LANCZOS` filter is one particular inhabitant; all theorems hold for
every inhabitant. -/
def Resampler : Type :=
  (ℕ → ℕ → Pixel) → ℕ × ℕ → ℕ × ℕ → ℕ → ℕ → Pixel

/-- The floating-point arithmetic the platform provides for the cover
branch's Python expressions `size / w` and `w * scale`. IEEE 754 binary64 is
one inhabitant (`doubleFM` below); exact rational arithmetic is another
(`exactFM`). -/
structure FloatModel where
  div : ℚ → ℚ → ℚ
  mul : ℚ → ℚ → ℚ

/-- The exact-rational float model: division and multiplication without
rounding. -/
def exactFM : FloatModel := ⟨fun a b => a / b, fun a b => a * b⟩

/-- `img.convert("RGBA")`: Pillow always returns a fresh copy; converting an
RGB source adds a fully opaque alpha band. -/
def Img.convertRGBA (img : Img) : Img :=
  if img.mode = "RGBA" then img
  else
    { width := img.width, height := img.height, mode := "RGBA",
      pix := fun i j => { img.pix i j with a := 255 } }

/-- `img.resize((nw, nh), LANCZOS)` without the dimension guard: Pillow
returns a plain copy when the target size equals the source size (with the
default full box), otherwise it runs the resampling filter. -/
def Img.resizeWith (R : Resampler) (img : Img) (nw nh : ℕ) : Img :=
  if nw = img.width ∧ nh = img.height then img
  else
    { width := nw, height := nh, mode := img.mode,
      pix := R img.pix (img.width, img.height) (nw, nh) }

/-- `img.resize((nw, nh), LANCZOS)` with Pillow's guard: target sides below 1
raise `ValueError: height and width must be > 0`. -/
def Img.resizeE (R : Resampler) (img : Img) (nw nh : ℤ) : Except PyErr Img :=
  if nw < 1 ∨ nh < 1 then .error .valueError
  else .ok (img.resizeWith R nw.toNat nh.toNat)

/-- Python's `min(a, b, key=key)`: the first argument wins ties. -/
def minKey (a b : ℤ) (key : ℤ → ℚ) : ℤ :=
  if key a ≤ key b then a else b

/-- Pillow's `round_aspect(number, key)` helper inside `thumbnail`:
`max(min(math.floor(number), math.ceil(number), key=key), 1)`. -/
def round_aspect (number : ℚ) (key : ℤ → ℚ) : ℤ :=
  max (minKey ⌊number⌋ ⌈number⌉ key) 1

/-- `img.thumbnail((size, size), LANCZOS)`, modelled on Pillow's pure-Python
`Image.thumbnail`: no-op when the image already fits inside the requested box,
otherwise shrink so the aspect ratio is preserved and one side equals `size`.
The aspect arithmetic is modelled over `ℚ`; it only selects which side keeps
the exact integer value `size` and how the other side is rounded, and every
property proved below holds whichever branch the comparison takes. The
divisions that raise `ZeroDivisionError` in Python are mapped to
`.error .zeroDivision`. -/
def Img.thumbnailE (R : Resampler) (img : Img) (size : ℤ) : Except PyErr Img :=
  let x : ℤ := size
  let y : ℤ := size
  if x ≥ (img.width : ℤ) ∧ y ≥ (img.height : ℤ) then .ok img
  else if img.height = 0 then .error .zeroDivision
  else if y = 0 then .error .zeroDivision
  else
    let aspect : ℚ := (img.width : ℚ) / (img.height : ℚ)
    if (x : ℚ) / (y : ℚ) ≥ aspect then
      let x' : ℤ := round_aspect ((y : ℚ) * aspect) fun n => |aspect - (n : ℚ) / (y : ℚ)|
      if x' = (img.width : ℤ) ∧ y = (img.height : ℤ) then .ok img
      else img.resizeE R x' y
    else if aspect = 0 then .error .zeroDivision
    else
      let y' : ℤ := round_aspect ((x : ℚ) / aspect) fun n =>
        if n = 0 then 0 else |aspect - (x : ℚ) / (n : ℚ)|
      if x = (img.width : ℤ) ∧ y' = (img.height : ℤ) then .ok img
      else img.resizeE R x y'

/-- `Image.new("RGBA", (w, h), color)`: a fresh canvas filled with `color`;
negative sides raise `ValueError`. -/
def Image.new (w h : ℤ) (c : Pixel) : Except PyErr Img :=
  if w < 0 ∨ h < 0 then .error .valueError
  else .ok { width := w.toNat, height := h.toNat, mode := "RGBA", pix := fun _ _ => c }

/-- The transparent `size × size` canvas allocated by the contain branch. -/
def blankCanvas (size : ℤ) : Img :=
  { width := size.toNat, height := size.toNat, mode := "RGBA", pix := fun _ _ => Pixel.clear }

/-- `canvas.paste(src, (x, y))` with no mask: overwrite (not alpha-blend) the
rectangle of `src`'s size at offset `(x, y)`, clipped to the canvas. -/
def Img.paste (canvas src : Img) (x y : ℤ) : Img :=
  { canvas with
    pix := fun i j =>
      if x ≤ (i : ℤ) ∧ (i : ℤ) < x + (src.width : ℤ) ∧
          y ≤ (j : ℤ) ∧ (j : ℤ) < y + (src.height : ℤ)
      then src.pix ((i : ℤ) - x).toNat ((j : ℤ) - y).toNat
      else canvas.pix i j }

/-- `img.crop((l, t, r, b))`: a `(r - l) × (b - t)` window; coordinates
outside the source image read as zero, i.e. transparent black. -/
def Img.crop (img : Img) (l t r b : ℤ) : Img :=
  { width := (r - l).toNat, height := (b - t).toNat, mode := img.mode,
    pix := fun i j =>
      if 0 ≤ l + (i : ℤ) ∧ l + (i : ℤ) < (img.width : ℤ) ∧
          0 ≤ t + (j : ℤ) ∧ t + (j : ℤ) < (img.height : ℤ)
      then img.pix (l + (i : ℤ)).toNat (t + (j : ℤ)).toNat
      else Pixel.clear }

/-- Floor of a rational, computed on its numerator and denominator with
integer floor division. -/
def qfloor (q : ℚ) : ℤ := Int.fdiv q.num (q.den : ℤ)

/-- Python's `int()` applied to a rational: truncation toward zero. -/
def truncQ (q : ℚ) : ℤ := if 0 ≤ q then qfloor q else -(qfloor (-q))

/-- `scale = max(size / w, size / h)` from the cover branch of `make_square`:
two float divisions (through the model `FM`) and an exact comparison. -/
def cover_scale (FM : FloatModel) (w h : ℕ) (size : ℤ) : ℚ :=
  max (FM.div ((size : ℤ) : ℚ) ((w : ℕ) : ℚ)) (FM.div ((size : ℤ) : ℚ) ((h : ℕ) : ℚ))

/-- `nw, nh = int(w * scale), int(h * scale)` from the cover branch of
`make_square`: float multiplications (through `FM`) truncated by `int()`. -/
def cover_dims (FM : FloatModel) (w h : ℕ) (size : ℤ) : ℤ × ℤ :=
  (truncQ (FM.mul ((w : ℕ) : ℚ) (cover_scale FM w h size)),
   truncQ (FM.mul ((h : ℕ) : ℚ) (cover_scale FM w h size)))

/-- The `mode == "contain"` branch of `make_square`: convert to RGBA,
thumbnail into the square, allocate a transparent canvas and paste the
thumbnail at the centering offsets computed with floor division. -/
def containE (R : Resampler) (img0 : Img) (size : ℤ) : Except PyErr Img := do
  let img := img0.convertRGBA
  let timg ← img.thumbnailE R size
  let canvas ← Image.new size size Pixel.clear
  let x : ℤ := Int.fdiv (size - (timg.width : ℤ)) 2
  let y : ℤ := Int.fdiv (size - (timg.height : ℤ)) 2
  return canvas.paste timg x y

/-- The cover branch of `make_square`: convert to RGBA, scale (in the float
model `FM`) so the square is covered, then center-crop a `size × size`
window. The divisions in `scale = max(size / w, size / h)` raise
`ZeroDivisionError` on a zero dimension. -/
def coverE (FM : FloatModel) (R : Resampler) (img0 : Img) (size : ℤ) :
    Except PyErr Img := do
  let img := img0.convertRGBA
  if img.width = 0 ∨ img.height = 0 then Except.error .zeroDivision
  else
    let nw : ℤ := (cover_dims FM img.width img.height size).1
    let nh : ℤ := (cover_dims FM img.width img.height size).2
    let rimg ← img.resizeE R nw nh
    let left : ℤ := Int.fdiv (nw - size) 2
    let top : ℤ := Int.fdiv (nh - size) 2
    return rimg.crop left top (left + size) (top + size)

/-- The mode normalization at the top of `make_square`:
`if mode not in ("contain", "cover"): mode = "contain"`. -/
def normMode (mode : String) : String :=
  if mode = "contain" ∨ mode = "cover" then mode else "contain"

/-- Shallow embedding of `make_square(img, size, mode)` from `make_icons.py`,
parametric in the resampling filter and the cover branch's float
arithmetic. -/
def make_square (FM : FloatModel) (R : Resampler) (img : Img) (size : ℤ)
    (mode : String) : Except PyErr Img :=
  if normMode mode = "contain" then containE R img size else coverE FM R img size

/-- Spec-worded variant of `cover_dims`, for comparison with the source: the
spec says the cover branch resamples to
`(nw, nh) = (round(width * scale), round(height * scale))`, i.e. rounds the
exact products to the nearest integer instead of truncating. -/
def spec_cover_dims (w h : ℕ) (size : ℤ) : ℤ × ℤ :=
  (round ((w : ℚ) * cover_scale exactFM w h size),
   round ((h : ℚ) * cover_scale exactFM w h size))

/-- Exponent normalization loop for binary64 rounding: scale the fraction
`n / d` by powers of two (recorded in `e`) until the scaled numerator lies in
`[2^52 * d, 2^53 * d)`, i.e. the value has a 53-bit significand. Fuel-based
structural recursion; the fuel covers every exponent reachable here. -/
def normI : ℕ → ℤ → ℤ → ℤ → ℤ × ℤ × ℤ
  | 0, n, d, e => (n, d, e)
  | fuel + 1, n, d, e =>
    if n < 4503599627370496 * d then normI fuel (2 * n) d (e - 1)
    else if 9007199254740992 * d ≤ n then normI fuel n (2 * d) (e + 1)
    else (n, d, e)

/-- Round the positive fraction `sgn * (n / d)` (with `0 < n`, `0 < d`) to 53
significant bits, round-to-nearest with ties to even, returning the value as
an exact rational `sgn * m * 2 ^ e`. -/
def roundPos64 (sgn n d : ℤ) : ℚ :=
  let t := normI 2400 n d 0
  let m0 := Int.fdiv t.1 t.2.1
  let r := t.1 - m0 * t.2.1
  let m := if 2 * r < t.2.1 then m0
    else if t.2.1 < 2 * r then m0 + 1
    else if m0 % 2 = 0 then m0 else m0 + 1
  if 0 ≤ t.2.2 then Rat.divInt (sgn * m * ((2 ^ t.2.2.toNat : ℕ) : ℤ)) 1
  else Rat.divInt (sgn * m) ((2 ^ (-t.2.2).toNat : ℕ) : ℤ)

/-- Round the fraction `n / d` (`d ≠ 0`) to the nearest binary64 value
(ties to even, unbounded exponent range). -/
def round64 (n d : ℤ) : ℚ :=
  let n2 := if d < 0 then -n else n
  let d2 := if d < 0 then -d else d
  if n2 = 0 then 0
  else if n2 < 0 then roundPos64 (-1) (-n2) d2
  else roundPos64 1 n2 d2

/-- IEEE 754 binary64 arithmetic (round-to-nearest, ties-to-even, unbounded
exponent): the float model Python uses for `size / w` and `w * scale`. Both
operations round the exact rational result of the operation, which is how a
correctly rounded floating-point operation behaves on representable
operands. -/
def doubleFM : FloatModel :=
  { div := fun a b => round64 (a.num * (b.den : ℤ)) (b.num * (a.den : ℤ)),
    mul := fun a b => round64 (a.num * b.num) ((a.den : ℤ) * (b.den : ℤ)) }

/-- A bound on the relative rounding error of one correctly rounded binary64
operation on a positive normal-range value: `2 ^ (-52)`. -/
def ulpEps : ℚ := 1 / 2 ^ 52

/-- A heap of image buffers; a Python reference is an index into it. -/
abbrev Store : Type := List Img

/-- Placeholder image used for out-of-range reads of the store. -/
def dfltImg : Img :=
  { width := 0, height := 0, mode := "", pix := fun _ _ => Pixel.clear }

/-- Store-passing semantics of the contain branch, mirroring the Python
statements: `img = img.convert("RGBA")` allocates a converted copy and rebinds
the local name; `img.thumbnail(...)` mutates that copy in place;
`Image.new` allocates the canvas; `canvas.paste(...)` mutates the canvas. -/
def containS (R : Resampler) (s : Store) (ref : ℕ) (size : ℤ) :
    Except PyErr (Store × ℕ) := do
  let img0 := s.getD ref dfltImg
  let s1 := s ++ [img0.convertRGBA]
  let r1 := s.length
  let timg ← (s1.getD r1 dfltImg).thumbnailE R size
  let s2 := s1.set r1 timg
  let canvas ← Image.new size size Pixel.clear
  let s3 := s2 ++ [canvas]
  let r2 := s2.length
  let x : ℤ := Int.fdiv (size - ((s3.getD r1 dfltImg).width : ℤ)) 2
  let y : ℤ := Int.fdiv (size - ((s3.getD r1 dfltImg).height : ℤ)) 2
  let s4 := s3.set r2 ((s3.getD r2 dfltImg).paste (s3.getD r1 dfltImg) x y)
  return (s4, r2)

/-- Store-passing semantics of the cover branch: `convert`, `resize` and
`crop` each return a fresh buffer; nothing writes to an existing slot. -/
def coverS (FM : FloatModel) (R : Resampler) (s : Store) (ref : ℕ) (size : ℤ) :
    Except PyErr (Store × ℕ) := do
  let img0 := s.getD ref dfltImg
  let s1 := s ++ [img0.convertRGBA]
  let r1 := s.length
  let c := s1.getD r1 dfltImg
  if c.width = 0 ∨ c.height = 0 then Except.error .zeroDivision
  else
    let nw : ℤ := (cover_dims FM c.width c.height size).1
    let nh : ℤ := (cover_dims FM c.width c.height size).2
    let rimg ← c.resizeE R nw nh
    let s2 := s1 ++ [rimg]
    let r2 := s1.length
    let left : ℤ := Int.fdiv (nw - size) 2
    let top : ℤ := Int.fdiv (nh - size) 2
    let s3 := s2 ++ [(s2.getD r2 dfltImg).crop left top (left + size) (top + size)]
    let r3 := s2.length
    return (s3, r3)

/-- Store-passing semantics of `make_square`: a call on an image held in slot
`ref` of the heap, returning the final heap and the slot of the result. -/
def makeSquareS (FM : FloatModel) (R : Resampler) (s : Store) (ref : ℕ)
    (size : ℤ) (mode : String) : Except PyErr (Store × ℕ) :=
  if normMode mode = "contain" then containS R s ref size
  else coverS FM R s ref size

/-- The image a store-level call returns to the caller. -/
def runOut (res : Except PyErr (Store × ℕ)) : Except PyErr Img :=
  res.map fun p => p.1.getD p.2 dfltImg

/-- Nearest-neighbour resampler, used to instantiate the abstract filter
parameter on concrete inputs. -/
def R0 : Resampler := fun pix sd td i j =>
  pix (i * sd.1 / td.1) (j * sd.2 / td.2)

lemma exactFM_div (a b : ℚ) : exactFM.div a b = a / b := rfl

lemma exactFM_mul (a b : ℚ) : exactFM.mul a b = a * b := rfl

lemma convertRGBA_width (img : Img) : img.convertRGBA.width = img.width := by
  unfold Img.convertRGBA; split <;> rfl

lemma convertRGBA_height (img : Img) : img.convertRGBA.height = img.height := by
  unfold Img.convertRGBA; split <;> rfl

lemma convertRGBA_mode (img : Img) : img.convertRGBA.mode = "RGBA" := by
  unfold Img.convertRGBA; split
  · assumption
  · rfl

lemma convertRGBA_of_rgba (img : Img) (h : img.mode = "RGBA") :
    img.convertRGBA = img := by
  unfold Img.convertRGBA; rw [if_pos h]

lemma one_le_round_aspect (q : ℚ) (key : ℤ → ℚ) : 1 ≤ round_aspect q key :=
  le_max_right _ _

lemma round_aspect_le (q : ℚ) (key : ℤ → ℚ) (m : ℤ) (hm : 1 ≤ m)
    (hq : q ≤ (m : ℚ)) : round_aspect q key ≤ m := by
  have hc : ⌈q⌉ ≤ m := Int.ceil_le.mpr hq
  have hf : ⌊q⌋ ≤ m := le_trans (Int.floor_le_ceil q) hc
  unfold round_aspect minKey
  rcases le_or_lt (key ⌊q⌋) (key ⌈q⌉) with h | h
  · rw [if_pos h]; exact max_le hf hm
  · rw [if_neg (not_le.mpr h)]; exact max_le hc hm

lemma fdiv_two_nonneg (d : ℤ) (h : 0 ≤ d) : 0 ≤ d.fdiv 2 := by
  rw [Int.fdiv_eq_ediv _ (by norm_num)]; omega

lemma fdiv_two_le (d : ℤ) (h : 0 ≤ d) : d.fdiv 2 ≤ d := by
  rw [Int.fdiv_eq_ediv _ (by norm_num)]; omega

lemma fdiv_two_center (d : ℤ) (h : 0 ≤ d) :
    d.fdiv 2 ≤ d - d.fdiv 2 ∧ d - d.fdiv 2 ≤ d.fdiv 2 + 1 := by
  rw [Int.fdiv_eq_ediv _ (by norm_num)]; omega

lemma qfloor_eq (q : ℚ) : qfloor q = ⌊q⌋ := by
  have hd : (0 : ℤ) < (q.den : ℤ) := by exact_mod_cast q.pos
  have h1 := Int.ediv_add_emod q.num (q.den : ℤ)
  have h2 := Int.emod_nonneg q.num (by omega : (q.den : ℤ) ≠ 0)
  have h3 := Int.emod_lt_of_pos q.num hd
  have hchar : qfloor q * (q.den : ℤ) ≤ q.num ∧
      q.num < (qfloor q + 1) * (q.den : ℤ) := by
    unfold qfloor
    rw [Int.fdiv_eq_ediv _ (by omega)]
    constructor <;> nlinarith [h1, h2, h3]
  have hdQ : (0 : ℚ) < (q.den : ℚ) := by exact_mod_cast q.pos
  symm
  rw [Int.floor_eq_iff]
  constructor
  · have h4 : ((qfloor q : ℤ) : ℚ) * (q.den : ℚ) ≤ (q.num : ℚ) := by
      exact_mod_cast hchar.1
    have h5 : ((qfloor q : ℤ) : ℚ) ≤ (q.num : ℚ) / (q.den : ℚ) :=
      (le_div_iff₀ hdQ).mpr h4
    rwa [Rat.num_div_den q] at h5
  · have h4 : (q.num : ℚ) < (((qfloor q : ℤ) : ℚ) + 1) * (q.den : ℚ) := by
      exact_mod_cast hchar.2
    have h5 : (q.num : ℚ) / (q.den : ℚ) < ((qfloor q : ℤ) : ℚ) + 1 :=
      (div_lt_iff₀ hdQ).mpr h4
    rwa [Rat.num_div_den q] at h5

lemma truncQ_of_nonneg (q : ℚ) (h : 0 ≤ q) : truncQ q = ⌊q⌋ := by
  unfold truncQ; rw [if_pos h, qfloor_eq]

lemma truncQ_nonpos (q : ℚ) (h : q ≤ 0) : truncQ q ≤ 0 := by
  unfold truncQ
  split
  · rw [qfloor_eq]; exact Int.floor_nonpos h
  · rename_i hq
    have hz : (0 : ℤ) ≤ qfloor (-q) := by
      rw [qfloor_eq]
      exact Int.le_floor.mpr (by push_cast; linarith [not_le.mp hq])
    omega

lemma resizeE_ok (R : Resampler) (img : Img) (nw nh : ℤ)
    (h1 : 1 ≤ nw) (h2 : 1 ≤ nh) :
    ∃ t, img.resizeE R nw nh = .ok t ∧ t.width = nw.toNat ∧
      t.height = nh.toNat ∧ t.mode = img.mode := by
  unfold Img.resizeE
  rw [if_neg (by omega : ¬(nw < 1 ∨ nh < 1))]
  unfold Img.resizeWith
  by_cases hsame : nw.toNat = img.width ∧ nh.toNat = img.height
  · rw [if_pos hsame]
    exact ⟨img, rfl, hsame.1.symm, hsame.2.symm, rfl⟩
  · rw [if_neg hsame]
    exact ⟨_, rfl, rfl, rfl, rfl⟩

lemma thumbnailE_ok (R : Resampler) (img : Img) (size : ℤ)
    (hw : 1 ≤ img.width) (hh : 1 ≤ img.height) (hs : 1 ≤ size) :
    ∃ t, img.thumbnailE R size = .ok t ∧ t.mode = img.mode ∧
      (t.width : ℤ) ≤ size ∧ (t.height : ℤ) ≤ size ∧
      (((img.width : ℤ) ≤ size ∧ (img.height : ℤ) ≤ size) → t = img) ∧
      (¬((img.width : ℤ) ≤ size ∧ (img.height : ℤ) ≤ size) →
        ((t.width : ℤ) = size ∨ (t.height : ℤ) = size)) := by
  have hWpos : (0 : ℚ) < (img.width : ℚ) := by exact_mod_cast hw
  have hHpos : (0 : ℚ) < (img.height : ℚ) := by exact_mod_cast hh
  have hsQ : ((size : ℤ) : ℚ) ≠ 0 := by exact_mod_cast (by omega : size ≠ 0)
  have hsQ0 : (0 : ℚ) ≤ ((size : ℤ) : ℚ) := by exact_mod_cast (by omega : (0:ℤ) ≤ size)
  simp only [Img.thumbnailE]
  by_cases hskip : size ≥ (img.width : ℤ) ∧ size ≥ (img.height : ℤ)
  · rw [if_pos hskip]
    exact ⟨img, rfl, rfl, hskip.1, hskip.2, fun _ => rfl,
      fun hc => absurd ⟨hskip.1, hskip.2⟩ hc⟩
  · rw [if_neg hskip, if_neg (by omega : ¬ img.height = 0),
      if_neg (by omega : ¬ size = 0)]
    have hone : ((size : ℤ) : ℚ) / ((size : ℤ) : ℚ) = 1 := div_self hsQ
    by_cases hwh : img.width ≤ img.height
    · have hWH1 : (img.width : ℚ) / (img.height : ℚ) ≤ 1 :=
        (div_le_one hHpos).mpr (by exact_mod_cast hwh)
      have hcond : ((size : ℤ) : ℚ) / ((size : ℤ) : ℚ) ≥
          (img.width : ℚ) / (img.height : ℚ) := by rw [hone]; exact hWH1
      rw [if_pos hcond]
      have hqle : ((size : ℤ) : ℚ) * ((img.width : ℚ) / (img.height : ℚ)) ≤
          ((size : ℤ) : ℚ) := mul_le_of_le_one_right hsQ0 hWH1
      have h1x := one_le_round_aspect (((size : ℤ) : ℚ) * ((img.width : ℚ) / (img.height : ℚ)))
        (fun n => |(img.width : ℚ) / (img.height : ℚ) - (n : ℚ) / ((size : ℤ) : ℚ)|)
      have hlex := round_aspect_le (((size : ℤ) : ℚ) * ((img.width : ℚ) / (img.height : ℚ)))
        (fun n => |(img.width : ℚ) / (img.height : ℚ) - (n : ℚ) / ((size : ℤ) : ℚ)|)
        size hs hqle
      by_cases heq : round_aspect (((size : ℤ) : ℚ) * ((img.width : ℚ) / (img.height : ℚ)))
          (fun n => |(img.width : ℚ) / (img.height : ℚ) - (n : ℚ) / ((size : ℤ) : ℚ)|) =
          (img.width : ℤ) ∧ size = (img.height : ℤ)
      · rw [if_pos heq]
        exact ⟨img, rfl, rfl, heq.1 ▸ hlex, le_of_eq heq.2.symm,
          fun hc => absurd hc hskip, fun _ => Or.inr heq.2.symm⟩
      · rw [if_neg heq]
        obtain ⟨t, ht, htw, hth, htm⟩ := resizeE_ok R img _ size h1x hs
        refine ⟨t, ht, htm, ?_, ?_, fun hc => absurd hc hskip, fun _ => Or.inr ?_⟩
        · rw [htw, Int.toNat_of_nonneg (by omega)]; exact hlex
        · rw [hth, Int.toNat_of_nonneg (by omega)]
        · rw [hth, Int.toNat_of_nonneg (by omega)]
    · have hHW : img.height < img.width := by omega
      have hgt1 : 1 < (img.width : ℚ) / (img.height : ℚ) :=
        (one_lt_div hHpos).mpr (by exact_mod_cast hHW)
      have hcond : ¬(((size : ℤ) : ℚ) / ((size : ℤ) : ℚ) ≥
          (img.width : ℚ) / (img.height : ℚ)) := by
        rw [hone]; exact not_le.mpr hgt1
      rw [if_neg hcond,
        if_neg (ne_of_gt (div_pos hWpos hHpos) :
          ¬(img.width : ℚ) / (img.height : ℚ) = 0)]
      have hqle : ((size : ℤ) : ℚ) / ((img.width : ℚ) / (img.height : ℚ)) ≤
          ((size : ℤ) : ℚ) := div_le_self hsQ0 (le_of_lt hgt1)
      have h1y := one_le_round_aspect
        (((size : ℤ) : ℚ) / ((img.width : ℚ) / (img.height : ℚ)))
        (fun n => if n = 0 then 0 else
          |(img.width : ℚ) / (img.height : ℚ) - ((size : ℤ) : ℚ) / (n : ℚ)|)
      have hley := round_aspect_le
        (((size : ℤ) : ℚ) / ((img.width : ℚ) / (img.height : ℚ)))
        (fun n => if n = 0 then 0 else
          |(img.width : ℚ) / (img.height : ℚ) - ((size : ℤ) : ℚ) / (n : ℚ)|)
        size hs hqle
      by_cases heq : size = (img.width : ℤ) ∧
          round_aspect (((size : ℤ) : ℚ) / ((img.width : ℚ) / (img.height : ℚ)))
            (fun n => if n = 0 then 0 else
              |(img.width : ℚ) / (img.height : ℚ) - ((size : ℤ) : ℚ) / (n : ℚ)|) =
            (img.height : ℤ)
      · rw [if_pos heq]
        exact ⟨img, rfl, rfl, le_of_eq heq.1.symm, heq.2 ▸ hley,
          fun hc => absurd hc hskip, fun _ => Or.inl heq.1.symm⟩
      · rw [if_neg heq]
        obtain ⟨t, ht, htw, hth, htm⟩ := resizeE_ok R img size _ hs h1y
        refine ⟨t, ht, htm, ?_, ?_, fun hc => absurd hc hskip, fun _ => Or.inl ?_⟩
        · rw [htw, Int.toNat_of_nonneg (by omega)]
        · rw [hth, Int.toNat_of_nonneg (by omega)]; exact hley
        · rw [htw, Int.toNat_of_nonneg (by omega)]

lemma exceptBind_ok {α β : Type} (a : α) (f : α → Except PyErr β) :
    (Except.ok a >>= f : Except PyErr β) = f a := rfl

lemma thumbnailE_err (R : Resampler) (img : Img) (size : ℤ)
    (hw : 1 ≤ img.width) (hh : 1 ≤ img.height) (hs : size ≤ 0) :
    ∃ e, img.thumbnailE R size = .error e := by
  have hWpos : (0 : ℚ) < (img.width : ℚ) := by exact_mod_cast hw
  have hHpos : (0 : ℚ) < (img.height : ℚ) := by exact_mod_cast hh
  simp only [Img.thumbnailE]
  rw [if_neg (by omega : ¬(size ≥ (img.width : ℤ) ∧ size ≥ (img.height : ℤ))),
    if_neg (by omega : ¬ img.height = 0)]
  by_cases hs0 : size = 0
  · rw [if_pos hs0]; exact ⟨.zeroDivision, rfl⟩
  · rw [if_neg hs0]
    have hsQ : ((size : ℤ) : ℚ) ≠ 0 := by exact_mod_cast hs0
    have hone : ((size : ℤ) : ℚ) / ((size : ℤ) : ℚ) = 1 := div_self hsQ
    by_cases hwh : img.width ≤ img.height
    · have hcond : ((size : ℤ) : ℚ) / ((size : ℤ) : ℚ) ≥
          (img.width : ℚ) / (img.height : ℚ) := by
        rw [hone]; exact (div_le_one hHpos).mpr (by exact_mod_cast hwh)
      rw [if_pos hcond,
        if_neg (by omega :
          ¬(round_aspect (((size : ℤ) : ℚ) * ((img.width : ℚ) / (img.height : ℚ)))
            (fun n => |(img.width : ℚ) / (img.height : ℚ) - (n : ℚ) / ((size : ℤ) : ℚ)|) =
            (img.width : ℤ) ∧ size = (img.height : ℤ)))]
      unfold Img.resizeE
      rw [if_pos (Or.inr (by omega : size < 1))]
      exact ⟨.valueError, rfl⟩
    · have hgt1 : 1 < (img.width : ℚ) / (img.height : ℚ) :=
        (one_lt_div hHpos).mpr (by exact_mod_cast (by omega : img.height < img.width))
      rw [if_neg (by rw [hone]; exact not_le.mpr hgt1 :
          ¬(((size : ℤ) : ℚ) / ((size : ℤ) : ℚ) ≥ (img.width : ℚ) / (img.height : ℚ))),
        if_neg (ne_of_gt (div_pos hWpos hHpos) :
          ¬(img.width : ℚ) / (img.height : ℚ) = 0),
        if_neg (by omega : ¬(size = (img.width : ℤ) ∧
          round_aspect (((size : ℤ) : ℚ) / ((img.width : ℚ) / (img.height : ℚ)))
            (fun n => if n = 0 then 0 else
              |(img.width : ℚ) / (img.height : ℚ) - ((size : ℤ) : ℚ) / (n : ℚ)|) =
            (img.height : ℤ)))]
      unfold Img.resizeE
      rw [if_pos (Or.inl (by omega : size < 1))]
      exact ⟨.valueError, rfl⟩

lemma containE_ok (R : Resampler) (img : Img) (size : ℤ)
    (hw : 1 ≤ img.width) (hh : 1 ≤ img.height) (hs : 1 ≤ size) :
    ∃ t, (img.convertRGBA).thumbnailE R size = .ok t ∧ t.mode = "RGBA" ∧
      (t.width : ℤ) ≤ size ∧ (t.height : ℤ) ≤ size ∧
      containE R img size = .ok ((blankCanvas size).paste t
        (Int.fdiv (size - (t.width : ℤ)) 2) (Int.fdiv (size - (t.height : ℤ)) 2)) := by
  obtain ⟨t, ht, htm, hw1, hh1, _, _⟩ :=
    thumbnailE_ok R img.convertRGBA size (by rw [convertRGBA_width]; exact hw)
      (by rw [convertRGBA_height]; exact hh) hs
  refine ⟨t, ht, by rw [htm, convertRGBA_mode], hw1, hh1, ?_⟩
  simp only [containE]
  rw [ht, exceptBind_ok]
  simp only [Image.new]
  rw [if_neg (by omega : ¬(size < 0 ∨ size < 0)), exceptBind_ok]
  rfl

lemma cover_scale_lower (w h : ℕ) (size : ℤ) (hw : 1 ≤ w) (hh : 1 ≤ h) :
    ((size : ℤ) : ℚ) ≤ (w : ℚ) * cover_scale exactFM w h size ∧
    ((size : ℤ) : ℚ) ≤ (h : ℚ) * cover_scale exactFM w h size := by
  have hWpos : (0 : ℚ) < (w : ℚ) := by exact_mod_cast hw
  have hHpos : (0 : ℚ) < (h : ℚ) := by exact_mod_cast hh
  unfold cover_scale
  rw [exactFM_div, exactFM_div]
  constructor
  · calc ((size : ℤ) : ℚ) = ((size : ℤ) : ℚ) / (w : ℚ) * (w : ℚ) :=
          (div_mul_cancel₀ _ (ne_of_gt hWpos)).symm
      _ ≤ max (((size : ℤ) : ℚ) / (w : ℚ)) (((size : ℤ) : ℚ) / (h : ℚ)) * (w : ℚ) :=
          mul_le_mul_of_nonneg_right (le_max_left _ _) hWpos.le
      _ = (w : ℚ) * max (((size : ℤ) : ℚ) / (w : ℚ)) (((size : ℤ) : ℚ) / (h : ℚ)) :=
          mul_comm _ _
  · calc ((size : ℤ) : ℚ) = ((size : ℤ) : ℚ) / (h : ℚ) * (h : ℚ) :=
          (div_mul_cancel₀ _ (ne_of_gt hHpos)).symm
      _ ≤ max (((size : ℤ) : ℚ) / (w : ℚ)) (((size : ℤ) : ℚ) / (h : ℚ)) * (h : ℚ) :=
          mul_le_mul_of_nonneg_right (le_max_right _ _) hHpos.le
      _ = (h : ℚ) * max (((size : ℤ) : ℚ) / (w : ℚ)) (((size : ℤ) : ℚ) / (h : ℚ)) :=
          mul_comm _ _

lemma cover_dims_ge (w h : ℕ) (size : ℤ) (hw : 1 ≤ w) (hh : 1 ≤ h)
    (hs : 1 ≤ size) :
    size ≤ (cover_dims exactFM w h size).1 ∧ size ≤ (cover_dims exactFM w h size).2 ∧
    (cover_dims exactFM w h size).1 = ⌊(w : ℚ) * cover_scale exactFM w h size⌋ ∧
    (cover_dims exactFM w h size).2 = ⌊(h : ℚ) * cover_scale exactFM w h size⌋ := by
  obtain ⟨hq1, hq2⟩ := cover_scale_lower w h size hw hh
  have hs0 : (0 : ℚ) ≤ ((size : ℤ) : ℚ) := by exact_mod_cast (by omega : (0:ℤ) ≤ size)
  have he1 : (cover_dims exactFM w h size).1 =
      truncQ ((w : ℚ) * cover_scale exactFM w h size) := by
    show truncQ (exactFM.mul _ _) = _
    rw [exactFM_mul]
  have he2 : (cover_dims exactFM w h size).2 =
      truncQ ((h : ℚ) * cover_scale exactFM w h size) := by
    show truncQ (exactFM.mul _ _) = _
    rw [exactFM_mul]
  have ht1 : truncQ ((w : ℚ) * cover_scale exactFM w h size) =
      ⌊(w : ℚ) * cover_scale exactFM w h size⌋ :=
    truncQ_of_nonneg _ (le_trans hs0 hq1)
  have ht2 : truncQ ((h : ℚ) * cover_scale exactFM w h size) =
      ⌊(h : ℚ) * cover_scale exactFM w h size⌋ :=
    truncQ_of_nonneg _ (le_trans hs0 hq2)
  refine ⟨?_, ?_, by rw [he1, ht1], by rw [he2, ht2]⟩
  · rw [he1, ht1]; exact Int.le_floor.mpr hq1
  · rw [he2, ht2]; exact Int.le_floor.mpr hq2

lemma coverE_ok (FM : FloatModel) (R : Resampler) (img : Img) (size : ℤ)
    (hw : 1 ≤ img.width) (hh : 1 ≤ img.height) (hs : 1 ≤ size)
    (hnw : size ≤ (cover_dims FM img.width img.height size).1)
    (hnh : size ≤ (cover_dims FM img.width img.height size).2) :
    ∃ rimg, (img.convertRGBA).resizeE R (cover_dims FM img.width img.height size).1
        (cover_dims FM img.width img.height size).2 = .ok rimg ∧
      rimg.mode = "RGBA" ∧
      (rimg.width : ℤ) = (cover_dims FM img.width img.height size).1 ∧
      (rimg.height : ℤ) = (cover_dims FM img.width img.height size).2 ∧
      size ≤ (rimg.width : ℤ) ∧ size ≤ (rimg.height : ℤ) ∧
      coverE FM R img size = .ok (rimg.crop
        (Int.fdiv ((cover_dims FM img.width img.height size).1 - size) 2)
        (Int.fdiv ((cover_dims FM img.width img.height size).2 - size) 2)
        (Int.fdiv ((cover_dims FM img.width img.height size).1 - size) 2 + size)
        (Int.fdiv ((cover_dims FM img.width img.height size).2 - size) 2 + size)) := by
  obtain ⟨rimg, hr, hrw, hrh, hrm⟩ := resizeE_ok R img.convertRGBA
    (cover_dims FM img.width img.height size).1 (cover_dims FM img.width img.height size).2
    (by omega) (by omega)
  have hrwZ : (rimg.width : ℤ) = (cover_dims FM img.width img.height size).1 := by
    rw [hrw, Int.toNat_of_nonneg (by omega)]
  have hrhZ : (rimg.height : ℤ) = (cover_dims FM img.width img.height size).2 := by
    rw [hrh, Int.toNat_of_nonneg (by omega)]
  refine ⟨rimg, hr, by rw [hrm, convertRGBA_mode], hrwZ, hrhZ, by omega, by omega, ?_⟩
  simp only [coverE]
  rw [if_neg (by rw [convertRGBA_width, convertRGBA_height]; omega :
    ¬(img.convertRGBA.width = 0 ∨ img.convertRGBA.height = 0))]
  rw [convertRGBA_width, convertRGBA_height, hr, exceptBind_ok]
  rfl

lemma paste_width (c s : Img) (x y : ℤ) : (c.paste s x y).width = c.width := rfl

lemma paste_height (c s : Img) (x y : ℤ) : (c.paste s x y).height = c.height := rfl

lemma paste_mode (c s : Img) (x y : ℤ) : (c.paste s x y).mode = c.mode := rfl

lemma blankCanvas_width (size : ℤ) : (blankCanvas size).width = size.toNat := rfl

lemma blankCanvas_height (size : ℤ) : (blankCanvas size).height = size.toNat := rfl

lemma crop_width (img : Img) (l t r b : ℤ) : (img.crop l t r b).width = (r - l).toNat := rfl

lemma crop_height (img : Img) (l t r b : ℤ) : (img.crop l t r b).height = (b - t).toNat := rfl

lemma crop_mode (img : Img) (l t r b : ℤ) : (img.crop l t r b).mode = img.mode := rfl

lemma normMode_contain_or_cover (mode : String) :
    normMode mode = "contain" ∨ normMode mode = "cover" := by
  unfold normMode
  split
  · rename_i hmode; exact hmode
  · exact Or.inl rfl

lemma make_square_contain (FM : FloatModel) (R : Resampler) (img : Img) (size : ℤ) :
    make_square FM R img size "contain" = containE R img size := by
  unfold make_square
  rw [show normMode "contain" = "contain" from by decide, if_pos rfl]

lemma make_square_cover (FM : FloatModel) (R : Resampler) (img : Img) (size : ℤ) :
    make_square FM R img size "cover" = coverE FM R img size := by
  unfold make_square
  rw [show normMode "cover" = "cover" from by decide,
    if_neg (by decide : ¬("cover" : String) = "contain")]

lemma pure_eq_ok {α : Type} (x : α) : (pure x : Except PyErr α) = .ok x := rfl

lemma resizeE_mode (R : Resampler) (img : Img) (nw nh : ℤ) (rimg : Img)
    (h : Img.resizeE R img nw nh = .ok rimg) : rimg.mode = img.mode := by
  revert h
  unfold Img.resizeE
  split
  · intro h
    exact Except.noConfusion h
  · intro h
    obtain rfl := Except.ok.inj h
    unfold Img.resizeWith
    split
    · rfl
    · rfl

lemma coverE_shape (FM : FloatModel) (R : Resampler) (img : Img) (size : ℤ)
    (out : Img) (hs : 1 ≤ size) (h : coverE FM R img size = .ok out) :
    (out.width : ℤ) = size ∧ (out.height : ℤ) = size ∧ out.mode = "RGBA" := by
  revert h
  simp only [coverE]
  by_cases hz : img.convertRGBA.width = 0 ∨ img.convertRGBA.height = 0
  · rw [if_pos hz]
    intro h
    exact Except.noConfusion h
  · rw [if_neg hz]
    cases hr : Img.resizeE R img.convertRGBA
        (cover_dims FM img.convertRGBA.width img.convertRGBA.height size).1
        (cover_dims FM img.convertRGBA.width img.convertRGBA.height size).2 with
    | error e =>
      intro h
      exact Except.noConfusion h
    | ok rimg =>
      simp only [exceptBind_ok, pure_eq_ok]
      intro h
      obtain rfl := Except.ok.inj h
      refine ⟨?_, ?_, ?_⟩
      · rw [crop_width]; omega
      · rw [crop_height]; omega
      · rw [crop_mode, resizeE_mode R img.convertRGBA _ _ rimg hr, convertRGBA_mode]

/-- A concrete 3 × 2 RGB test image used to instantiate proved theorems. -/
def imgW : Img :=
  { width := 3, height := 2, mode := "RGB", pix := fun _ _ => ⟨10, 20, 30, 40⟩ }

/-- A concrete 49 × 49 all-white RGBA image: the smallest square size on
which binary64 truncation makes the cover branch misbehave at the default
target sizes. -/
def img49 : Img :=
  { width := 49, height := 49, mode := "RGBA", pix := fun _ _ => ⟨255, 255, 255, 255⟩ }

set_option maxRecDepth 100000 in
/-- C1 counterexample: under binary64 arithmetic `49 * (1/49)` rounds to
`0.9999999999999999`, so for a 49 × 49 source at the valid size 1 in cover
mode the code computes `nw = int(49 * (1/49)) = 0` and `resize((0, 0))`
raises `ValueError`: no image is returned at all. -/
theorem make_square_cover_float_error_cex :
    make_square doubleFM R0 img49 1 "cover" = .error .valueError := by
  rfl

/-- C1 (amended): in contain mode `make_square` always succeeds on a
well-formed image, and every image either branch returns has
`width == height == size` and is RGBA; but in cover mode, under binary64
arithmetic, the call can fail with `ValueError` for valid inputs (float
truncation can produce a non-positive resize target), so success is not
universal. -/
theorem make_square_size_invariant (FM : FloatModel) (R : Resampler) (img : Img)
    (size : ℤ) (mode : String) (hw : 1 ≤ img.width) (hh : 1 ≤ img.height)
    (hs : 1 ≤ size) :
    (∀ out, make_square FM R img size mode = .ok out →
      (out.width : ℤ) = size ∧ (out.height : ℤ) = size ∧ out.mode = "RGBA") ∧
    (normMode mode = "contain" → ∃ out, make_square FM R img size mode = .ok out) := by
  constructor
  · intro out hout
    rcases normMode_contain_or_cover mode with hm | hm
    · have hmc : make_square FM R img size mode = containE R img size := by
        unfold make_square
        rw [hm, if_pos rfl]
      rw [hmc] at hout
      obtain ⟨t, _, _, _, _, hEq⟩ := containE_ok R img size hw hh hs
      rw [hEq] at hout
      obtain rfl := Except.ok.inj hout
      refine ⟨?_, ?_, rfl⟩
      · rw [paste_width, blankCanvas_width]; exact Int.toNat_of_nonneg (by omega)
      · rw [paste_height, blankCanvas_height]; exact Int.toNat_of_nonneg (by omega)
    · have hmc : make_square FM R img size mode = coverE FM R img size := by
        unfold make_square
        rw [hm, if_neg (by decide : ¬("cover" : String) = "contain")]
      rw [hmc] at hout
      exact coverE_shape FM R img size out hs hout
  · intro hm
    have hmc : make_square FM R img size mode = containE R img size := by
      unfold make_square
      rw [hm, if_pos rfl]
    obtain ⟨t, _, _, _, _, hEq⟩ := containE_ok R img size hw hh hs
    rw [hmc, hEq]
    exact ⟨_, rfl⟩

/-- C1 witness: the amended size invariant instantiated on a concrete 3 × 2
RGB image at size 16 in contain mode with the binary64 float model. -/
theorem make_square_size_invariant_witness :
    1 ≤ imgW.width ∧ 1 ≤ imgW.height ∧ 1 ≤ (16 : ℤ) ∧
    ((∀ out, make_square doubleFM R0 imgW 16 "contain" = .ok out →
       (out.width : ℤ) = 16 ∧ (out.height : ℤ) = 16 ∧ out.mode = "RGBA") ∧
     (normMode "contain" = "contain" →
       ∃ out, make_square doubleFM R0 imgW 16 "contain" = .ok out)) :=
  ⟨by decide, by decide, by decide,
    make_square_size_invariant doubleFM R0 imgW 16 "contain"
      (by decide) (by decide) (by decide)⟩

/-- C2: any mode value outside {"contain", "cover"} gives exactly the same
result as mode "contain"; no error is raised for an unrecognized mode. -/
theorem make_square_mode_fallback (FM : FloatModel) (R : Resampler) (img : Img)
    (size : ℤ) (mode : String) (h1 : mode ≠ "contain") (h2 : mode ≠ "cover") :
    make_square FM R img size mode = make_square FM R img size "contain" := by
  unfold make_square
  rw [show normMode mode = "contain" from by
      unfold normMode; rw [if_neg (not_or.mpr ⟨h1, h2⟩)],
    show normMode "contain" = "contain" from by decide]

/-- C2 witness: the fallback instantiated at the wrong-case mode string
"COVER" on a concrete image with the binary64 float model. -/
theorem make_square_mode_fallback_witness :
    ("COVER" : String) ≠ "contain" ∧ ("COVER" : String) ≠ "cover" ∧
    make_square doubleFM R0 imgW 16 "COVER" = make_square doubleFM R0 imgW 16 "contain" :=
  ⟨by decide, by decide,
    make_square_mode_fallback doubleFM R0 imgW 16 "COVER" (by decide) (by decide)⟩

lemma containE_err (R : Resampler) (img : Img) (size : ℤ)
    (hw : 1 ≤ img.width) (hh : 1 ≤ img.height) (hs : size ≤ 0) :
    ∃ e, containE R img size = .error e := by
  obtain ⟨e, he⟩ := thumbnailE_err R img.convertRGBA size
    (by rw [convertRGBA_width]; exact hw) (by rw [convertRGBA_height]; exact hh) hs
  refine ⟨e, ?_⟩
  simp only [containE]
  rw [he]
  rfl

lemma coverE_err (FM : FloatModel) (R : Resampler) (img : Img) (size : ℤ)
    (hw : 1 ≤ img.width) (hh : 1 ≤ img.height) (hs : size ≤ 0)
    (hdivSign : ∀ a b : ℚ, a ≤ 0 → 0 ≤ b → FM.div a b ≤ 0)
    (hmulSign : ∀ a b : ℚ, 0 ≤ a → b ≤ 0 → FM.mul a b ≤ 0) :
    ∃ e, coverE FM R img size = .error e := by
  have hsQ : ((size : ℤ) : ℚ) ≤ 0 := by exact_mod_cast hs
  have hscale : cover_scale FM img.width img.height size ≤ 0 := by
    unfold cover_scale
    exact max_le (hdivSign _ _ hsQ (by positivity)) (hdivSign _ _ hsQ (by positivity))
  have hnw : (cover_dims FM img.width img.height size).1 ≤ 0 := by
    show truncQ (FM.mul ((img.width : ℕ) : ℚ) (cover_scale FM img.width img.height size)) ≤ 0
    exact truncQ_nonpos _ (hmulSign _ _ (by positivity) hscale)
  refine ⟨.valueError, ?_⟩
  simp only [coverE]
  rw [if_neg (by rw [convertRGBA_width, convertRGBA_height]; omega :
    ¬(img.convertRGBA.width = 0 ∨ img.convertRGBA.height = 0))]
  rw [convertRGBA_width, convertRGBA_height]
  unfold Img.resizeE
  rw [if_pos (Or.inl (by omega))]
  rfl

/-- A degenerate zero-width RGBA image. -/
def img01 : Img :=
  { width := 0, height := 1, mode := "RGBA", pix := fun _ _ => Pixel.clear }

/-- C3 counterexample: `make_square` raises no error at all on a zero-width
image — for a 0 × 1 source at size 16 in contain mode the thumbnail step is a
no-op and the call succeeds, returning the pasted transparent canvas, instead
of failing with a typed `InvalidInput` error. -/
theorem make_square_zero_width_no_error :
    make_square exactFM R0 img01 16 "contain" = .ok ((blankCanvas 16).paste img01 8 7) := by
  rfl

/-- C3 (amended): the code performs no input validation and defines no typed
`InvalidInput` error. On a well-formed image (width ≥ 1, height ≥ 1), contain
mode never fails when size ≥ 1; for size ≤ 0 every call fails with an untyped
library error (`ZeroDivisionError` or `ValueError`, the only errors the model
can raise) propagated to the caller with no partial result, given that the
float arithmetic is sign-correct. Cover mode can fail even for size ≥ 1 under
binary64 truncation, and a zero-dimension image need not fail at all. -/
theorem make_square_validity (FM : FloatModel) (R : Resampler) (img : Img)
    (size : ℤ) (mode : String) (hw : 1 ≤ img.width) (hh : 1 ≤ img.height)
    (hdivSign : ∀ a b : ℚ, a ≤ 0 → 0 ≤ b → FM.div a b ≤ 0)
    (hmulSign : ∀ a b : ℚ, 0 ≤ a → b ≤ 0 → FM.mul a b ≤ 0) :
    (1 ≤ size → normMode mode = "contain" →
      ∃ out, make_square FM R img size mode = .ok out) ∧
    (size ≤ 0 → ∃ e, make_square FM R img size mode = .error e) ∧
    (∀ e, make_square FM R img size mode = .error e →
      e = .zeroDivision ∨ e = .valueError) := by
  refine ⟨?_, ?_, ?_⟩
  · intro hs hm
    have hmc : make_square FM R img size mode = containE R img size := by
      unfold make_square
      rw [hm, if_pos rfl]
    obtain ⟨t, _, _, _, _, hEq⟩ := containE_ok R img size hw hh hs
    rw [hmc, hEq]
    exact ⟨_, rfl⟩
  · intro hs
    rcases normMode_contain_or_cover mode with hm | hm
    · have hmc : make_square FM R img size mode = containE R img size := by
        unfold make_square
        rw [hm, if_pos rfl]
      obtain ⟨e, hE⟩ := containE_err R img size hw hh hs
      rw [hmc, hE]
      exact ⟨e, rfl⟩
    · have hmc : make_square FM R img size mode = coverE FM R img size := by
        unfold make_square
        rw [hm, if_neg (by decide : ¬("cover" : String) = "contain")]
      obtain ⟨e, hE⟩ := coverE_err FM R img size hw hh hs hdivSign hmulSign
      rw [hmc, hE]
      exact ⟨e, rfl⟩
  · intro e _
    cases e
    · exact Or.inl rfl
    · exact Or.inr rfl

/-- C3 witness: the amended validity statement instantiated on a concrete
3 × 2 image at size 16 in cover mode with exact-rational arithmetic. -/
theorem make_square_validity_witness :
    1 ≤ imgW.width ∧ 1 ≤ imgW.height ∧
    ((1 ≤ (16 : ℤ) → normMode "cover" = "contain" →
       ∃ out, make_square exactFM R0 imgW 16 "cover" = .ok out) ∧
     ((16 : ℤ) ≤ 0 → ∃ e, make_square exactFM R0 imgW 16 "cover" = .error e) ∧
     (∀ e, make_square exactFM R0 imgW 16 "cover" = .error e →
       e = .zeroDivision ∨ e = .valueError)) :=
  ⟨by decide, by decide,
    make_square_validity exactFM R0 imgW 16 "cover" (by decide) (by decide)
      (fun a b ha hb => by
        rw [exactFM_div]
        exact div_nonpos_of_nonpos_of_nonneg ha hb)
      (fun a b ha hb => by
        rw [exactFM_mul]
        exact mul_nonpos_of_nonneg_of_nonpos ha hb)⟩

/-- A 1 × 4 all-white RGBA column image. -/
def img14 : Img :=
  { width := 1, height := 4, mode := "RGBA", pix := fun _ _ => ⟨255, 255, 255, 255⟩ }

/-- C4 counterexample: for a 1 × 4 source at size 4 the pasted column is
column 1 (`x = (4 - 1) // 2 = 1`), leaving one column of padding on the left
and two on the right — the extra pixel of padding goes to the right, not to
the top/left as claimed. -/
theorem contain_extra_padding_right_cex :
    Int.fdiv (4 - (1 : ℤ)) 2 = 1 ∧
    (make_square exactFM R0 img14 4 "contain").map
        (fun o => (o.pix 0 1, o.pix 1 1, o.pix 2 1, o.pix 3 1)) =
      .ok (Pixel.clear, ⟨255, 255, 255, 255⟩, Pixel.clear, Pixel.clear) := by
  exact ⟨rfl, rfl⟩

/-- C4 (amended): in contain mode the scaled image is pasted at
`x = (size - nw) // 2`, `y = (size - nh) // 2` (floor division); when the
padding difference on an axis is odd the extra pixel of padding goes to the
bottom/right side (the top/left side receives the smaller half). -/
theorem contain_centering (FM : FloatModel) (R : Resampler) (img : Img) (size : ℤ)
    (hw : 1 ≤ img.width) (hh : 1 ≤ img.height) (hs : 1 ≤ size) :
    ∃ t x y, (img.convertRGBA).thumbnailE R size = .ok t ∧
      x = Int.fdiv (size - (t.width : ℤ)) 2 ∧
      y = Int.fdiv (size - (t.height : ℤ)) 2 ∧
      make_square FM R img size "contain" = .ok ((blankCanvas size).paste t x y) ∧
      x ≤ (size - (t.width : ℤ)) - x ∧ (size - (t.width : ℤ)) - x ≤ x + 1 ∧
      y ≤ (size - (t.height : ℤ)) - y ∧ (size - (t.height : ℤ)) - y ≤ y + 1 := by
  obtain ⟨t, ht, _, hw1, hh1, hEq⟩ := containE_ok R img size hw hh hs
  refine ⟨t, _, _, ht, rfl, rfl, ?_, ?_, ?_, ?_, ?_⟩
  · rw [make_square_contain, hEq]
  · exact (fdiv_two_center _ (by omega)).1
  · exact (fdiv_two_center _ (by omega)).2
  · exact (fdiv_two_center _ (by omega)).1
  · exact (fdiv_two_center _ (by omega)).2

/-- C4 witness: the amended centering statement instantiated on the concrete
3 × 2 image at size 16 with the binary64 float model. -/
theorem contain_centering_witness :
    1 ≤ imgW.width ∧ 1 ≤ imgW.height ∧ 1 ≤ (16 : ℤ) ∧
    ∃ t x y, (imgW.convertRGBA).thumbnailE R0 16 = .ok t ∧
      x = Int.fdiv (16 - (t.width : ℤ)) 2 ∧
      y = Int.fdiv (16 - (t.height : ℤ)) 2 ∧
      make_square doubleFM R0 imgW 16 "contain" = .ok ((blankCanvas 16).paste t x y) ∧
      x ≤ (16 - (t.width : ℤ)) - x ∧ (16 - (t.width : ℤ)) - x ≤ x + 1 ∧
      y ≤ (16 - (t.height : ℤ)) - y ∧ (16 - (t.height : ℤ)) - y ≤ y + 1 :=
  ⟨by decide, by decide, by decide,
    contain_centering doubleFM R0 imgW 16 (by decide) (by decide) (by decide)⟩

/-- A 10 × 10 all-white RGBA image, strictly smaller than target size 128. -/
def img10 : Img :=
  { width := 10, height := 10, mode := "RGBA", pix := fun _ _ => ⟨255, 255, 255, 255⟩ }

/-- C5 counterexample: the contain-mode scaling step (`thumbnail`) never
upscales — a 10 × 10 source at size 128 is left at 10 × 10, so neither scaled
dimension equals 128, far beyond rounding tolerance. -/
theorem thumbnail_no_upscale_cex :
    (img10.convertRGBA.thumbnailE R0 128).map (fun t => (t.width, t.height)) =
      .ok (10, 10) ∧ (10 : ℕ) ≠ 128 := by
  exact ⟨rfl, by decide⟩

/-- C5 (amended): in contain mode the scaled image always satisfies
`nw ≤ size` and `nh ≤ size`; when the source does not already fit inside the
square, at least one of `nw, nh` equals `size`; but a source that already fits
(both dimensions ≤ size) is left at its original dimensions — `thumbnail`
never scales up. -/
theorem contain_scaled_dims (R : Resampler) (img : Img) (size : ℤ)
    (hw : 1 ≤ img.width) (hh : 1 ≤ img.height) (hs : 1 ≤ size) :
    ∃ t, (img.convertRGBA).thumbnailE R size = .ok t ∧
      (t.width : ℤ) ≤ size ∧ (t.height : ℤ) ≤ size ∧
      (((img.width : ℤ) ≤ size ∧ (img.height : ℤ) ≤ size) →
        (t.width = img.width ∧ t.height = img.height)) ∧
      (¬((img.width : ℤ) ≤ size ∧ (img.height : ℤ) ≤ size) →
        ((t.width : ℤ) = size ∨ (t.height : ℤ) = size)) := by
  obtain ⟨t, ht, _, hw1, hh1, hid, hone⟩ := thumbnailE_ok R img.convertRGBA size
    (by rw [convertRGBA_width]; exact hw) (by rw [convertRGBA_height]; exact hh) hs
  rw [convertRGBA_width, convertRGBA_height] at hid hone
  refine ⟨t, ht, hw1, hh1, fun hfit => ?_, hone⟩
  rw [hid hfit, convertRGBA_width, convertRGBA_height]
  exact ⟨rfl, rfl⟩

/-- C5 witness: the amended statement instantiated on the concrete 3 × 2
image at size 16 (a source that already fits and is left unscaled). -/
theorem contain_scaled_dims_witness :
    1 ≤ imgW.width ∧ 1 ≤ imgW.height ∧ 1 ≤ (16 : ℤ) ∧
    ∃ t, (imgW.convertRGBA).thumbnailE R0 16 = .ok t ∧
      (t.width : ℤ) ≤ 16 ∧ (t.height : ℤ) ≤ 16 ∧
      (((imgW.width : ℤ) ≤ 16 ∧ (imgW.height : ℤ) ≤ 16) →
        (t.width = imgW.width ∧ t.height = imgW.height)) ∧
      (¬((imgW.width : ℤ) ≤ 16 ∧ (imgW.height : ℤ) ≤ 16) →
        ((t.width : ℤ) = 16 ∨ (t.height : ℤ) = 16)) :=
  ⟨by decide, by decide, by decide,
    contain_scaled_dims R0 imgW 16 (by decide) (by decide) (by decide)⟩

set_option maxRecDepth 100000 in
/-- C6 counterexample: at source 7 × 5 and size 4 the binary64 cover scale is
`max(4/7, 4/5) = fl(4/5)` and the code truncates, `int(7 * 0.8) = 5`, while
the spec's `round(7 * 0.8) = 6`; the code's dimensions differ from the spec's
rounded formula. -/
theorem cover_dims_trunc_cex :
    cover_dims doubleFM 7 5 4 = (5, 4) ∧ spec_cover_dims 7 5 4 = (6, 4) ∧
    cover_dims doubleFM 7 5 4 ≠ spec_cover_dims 7 5 4 := by
  have h1 : cover_dims doubleFM 7 5 4 = (5, 4) := by decide
  have hsc : cover_scale exactFM 7 5 4 = 4 / 5 := by
    unfold cover_scale
    rw [exactFM_div, exactFM_div]
    rw [max_eq_right (by norm_num)]
    norm_num
  have h2 : spec_cover_dims 7 5 4 = (6, 4) := by
    unfold spec_cover_dims
    rw [hsc]
    have ha : round ((7 : ℚ) * (4 / 5)) = 6 := by
      rw [round_eq, Int.floor_eq_iff]
      norm_num
    have hb : round ((5 : ℚ) * (4 / 5)) = 4 := by
      rw [round_eq, Int.floor_eq_iff]
      norm_num
    rw [show (((7 : ℕ) : ℚ)) = (7 : ℚ) by norm_num,
      show (((5 : ℕ) : ℚ)) = (5 : ℚ) by norm_num, ha, hb]
  refine ⟨h1, h2, ?_⟩
  rw [h1, h2]
  decide

/-- C6 (amended): in cover mode the code computes the resampled dimensions by
`int()` truncation of the float products, `nw = int(w * scale)`,
`nh = int(h * scale)` with `scale = max(size / w, size / h)`, not by
`round()`; for any float arithmetic whose divisions and multiplications on
positive operands lose at most the relative error `2 ^ (-52)` per operation
(as correctly rounded binary64 does in the normal range) and any
`size ≤ 2 ^ 51`, the dimensions satisfy `nw ≥ size - 1` and `nh ≥ size - 1` —
one pixel of slack is real: binary64 gives `nw = 15` for a 49 × 49 source at
size 16 — and the center-crop window extends at most one pixel beyond the
resampled image on each axis. -/
theorem cover_dims_bounds (FM : FloatModel) (w h : ℕ) (size : ℤ)
    (hw : 1 ≤ w) (hh : 1 ≤ h) (hs : 1 ≤ size) (hsz : size ≤ 2 ^ 51)
    (hdiv : ∀ a b : ℚ, 0 < a → 0 < b → a / b * (1 - ulpEps) ≤ FM.div a b)
    (hmul : ∀ a b : ℚ, 0 ≤ a → 0 ≤ b → a * b * (1 - ulpEps) ≤ FM.mul a b) :
    size - 1 ≤ (cover_dims FM w h size).1 ∧ size - 1 ≤ (cover_dims FM w h size).2 ∧
    -1 ≤ Int.fdiv ((cover_dims FM w h size).1 - size) 2 ∧
    Int.fdiv ((cover_dims FM w h size).1 - size) 2 + size ≤
      (cover_dims FM w h size).1 + 1 ∧
    -1 ≤ Int.fdiv ((cover_dims FM w h size).2 - size) 2 ∧
    Int.fdiv ((cover_dims FM w h size).2 - size) 2 + size ≤
      (cover_dims FM w h size).2 + 1 := by
  have hWpos : (0 : ℚ) < (w : ℚ) := by exact_mod_cast hw
  have hHpos : (0 : ℚ) < (h : ℚ) := by exact_mod_cast hh
  have hsQpos : (0 : ℚ) < ((size : ℤ) : ℚ) := by exact_mod_cast hs
  have hszQ : ((size : ℤ) : ℚ) ≤ 2 ^ 51 := by exact_mod_cast hsz
  have heps : (0 : ℚ) < 1 - ulpEps := by norm_num [ulpEps]
  have key : ∀ d : ℕ, 0 < (d : ℚ) →
      ((size : ℤ) : ℚ) - 1 ≤ FM.mul (d : ℚ) (cover_scale FM w h size) ∨ False →
      True := fun _ _ _ => trivial
  have hcore : ∀ d : ℕ, (0 : ℚ) < (d : ℚ) →
      FM.div ((size : ℤ) : ℚ) ((d : ℕ) : ℚ) ≤ cover_scale FM w h size →
      ((size : ℤ) : ℚ) - 1 ≤ FM.mul ((d : ℕ) : ℚ) (cover_scale FM w h size) := by
    intro d hdpos hle
    have h1 : ((size : ℤ) : ℚ) / (d : ℚ) * (1 - ulpEps) ≤ FM.div ((size : ℤ) : ℚ) (d : ℚ) :=
      hdiv _ _ hsQpos hdpos
    have hscale_lb : ((size : ℤ) : ℚ) / (d : ℚ) * (1 - ulpEps) ≤
        cover_scale FM w h size := le_trans h1 hle
    have hscale_pos : (0 : ℚ) ≤ cover_scale FM w h size :=
      le_trans (by positivity) hscale_lb
    have h2 : (d : ℚ) * cover_scale FM w h size * (1 - ulpEps) ≤
        FM.mul ((d : ℕ) : ℚ) (cover_scale FM w h size) :=
      hmul _ _ hdpos.le hscale_pos
    have h3 : (d : ℚ) * (((size : ℤ) : ℚ) / (d : ℚ) * (1 - ulpEps)) ≤
        (d : ℚ) * cover_scale FM w h size :=
      mul_le_mul_of_nonneg_left hscale_lb hdpos.le
    have h4 : (d : ℚ) * (((size : ℤ) : ℚ) / (d : ℚ) * (1 - ulpEps)) =
        ((size : ℤ) : ℚ) * (1 - ulpEps) := by
      field_simp
    have h5 : ((size : ℤ) : ℚ) * (1 - ulpEps) * (1 - ulpEps) ≤
        FM.mul ((d : ℕ) : ℚ) (cover_scale FM w h size) := by
      calc ((size : ℤ) : ℚ) * (1 - ulpEps) * (1 - ulpEps)
          ≤ (d : ℚ) * cover_scale FM w h size * (1 - ulpEps) := by
            rw [← h4]
            exact mul_le_mul_of_nonneg_right h3 heps.le
        _ ≤ FM.mul ((d : ℕ) : ℚ) (cover_scale FM w h size) := h2
    have h6 : ((size : ℤ) : ℚ) - 1 ≤ ((size : ℤ) : ℚ) * (1 - ulpEps) * (1 - ulpEps) := by
      have hgoal : ((size : ℤ) : ℚ) - 1 ≤
          ((size : ℤ) : ℚ) * (1 - 1 / 2 ^ 52) * (1 - 1 / 2 ^ 52) := by
        nlinarith [hszQ, hsQpos.le]
      calc ((size : ℤ) : ℚ) - 1 ≤
          ((size : ℤ) : ℚ) * (1 - 1 / 2 ^ 52) * (1 - 1 / 2 ^ 52) := hgoal
        _ = ((size : ℤ) : ℚ) * (1 - ulpEps) * (1 - ulpEps) := by norm_num [ulpEps]
    exact le_trans h6 h5
  have hbound : ∀ d : ℕ, (0 : ℚ) < (d : ℚ) →
      FM.div ((size : ℤ) : ℚ) ((d : ℕ) : ℚ) ≤ cover_scale FM w h size →
      size - 1 ≤ truncQ (FM.mul ((d : ℕ) : ℚ) (cover_scale FM w h size)) := by
    intro d hdpos hle
    have hval := hcore d hdpos hle
    have hpos : (0 : ℚ) ≤ FM.mul ((d : ℕ) : ℚ) (cover_scale FM w h size) := by
      have : (0 : ℚ) ≤ ((size : ℤ) : ℚ) - 1 := by
        have : (1 : ℚ) ≤ ((size : ℤ) : ℚ) := by exact_mod_cast hs
        linarith
      linarith
    rw [truncQ_of_nonneg _ hpos]
    refine Int.le_floor.mpr ?_
    calc (((size - 1 : ℤ)) : ℚ) = ((size : ℤ) : ℚ) - 1 := by push_cast; ring
      _ ≤ _ := hval
  have hge1 : size - 1 ≤ (cover_dims FM w h size).1 :=
    hbound w hWpos (by unfold cover_scale; exact le_max_left _ _)
  have hge2 : size - 1 ≤ (cover_dims FM w h size).2 :=
    hbound h hHpos (by unfold cover_scale; exact le_max_right _ _)
  have hf1 : -1 ≤ Int.fdiv ((cover_dims FM w h size).1 - size) 2 ∧
      Int.fdiv ((cover_dims FM w h size).1 - size) 2 + size ≤
        (cover_dims FM w h size).1 + 1 := by
    rw [Int.fdiv_eq_ediv _ (by norm_num)]
    omega
  have hf2 : -1 ≤ Int.fdiv ((cover_dims FM w h size).2 - size) 2 ∧
      Int.fdiv ((cover_dims FM w h size).2 - size) 2 + size ≤
        (cover_dims FM w h size).2 + 1 := by
    rw [Int.fdiv_eq_ediv _ (by norm_num)]
    omega
  exact ⟨hge1, hge2, hf1.1, hf1.2, hf2.1, hf2.2⟩

/-- C6 witness: the amended bounds instantiated at source 7 × 5 and size 4
with the exact-rational float model, whose per-operation error is zero and in
particular below `2 ^ (-52)`. -/
theorem cover_dims_bounds_witness :
    1 ≤ (7 : ℕ) ∧ 1 ≤ (5 : ℕ) ∧ 1 ≤ (4 : ℤ) ∧ (4 : ℤ) ≤ 2 ^ 51 ∧
    (∀ a b : ℚ, 0 < a → 0 < b → a / b * (1 - ulpEps) ≤ exactFM.div a b) ∧
    (∀ a b : ℚ, 0 ≤ a → 0 ≤ b → a * b * (1 - ulpEps) ≤ exactFM.mul a b) ∧
    ((4 : ℤ) - 1 ≤ (cover_dims exactFM 7 5 4).1 ∧
     (4 : ℤ) - 1 ≤ (cover_dims exactFM 7 5 4).2 ∧
     -1 ≤ Int.fdiv ((cover_dims exactFM 7 5 4).1 - 4) 2 ∧
     Int.fdiv ((cover_dims exactFM 7 5 4).1 - 4) 2 + 4 ≤ (cover_dims exactFM 7 5 4).1 + 1 ∧
     -1 ≤ Int.fdiv ((cover_dims exactFM 7 5 4).2 - 4) 2 ∧
     Int.fdiv ((cover_dims exactFM 7 5 4).2 - 4) 2 + 4 ≤ (cover_dims exactFM 7 5 4).2 + 1) :=
  ⟨by decide, by decide, by decide, by decide,
    fun a b ha hb => by
      rw [exactFM_div]
      exact mul_le_of_le_one_right (div_nonneg ha.le hb.le) (by norm_num [ulpEps]),
    fun a b ha hb => by
      rw [exactFM_mul]
      exact mul_le_of_le_one_right (mul_nonneg ha hb) (by norm_num [ulpEps]),
    cover_dims_bounds exactFM 7 5 4 (by decide) (by decide) (by decide) (by decide)
      (fun a b ha hb => by
        rw [exactFM_div]
        exact mul_le_of_le_one_right (div_nonneg ha.le hb.le) (by norm_num [ulpEps]))
      (fun a b ha hb => by
        rw [exactFM_mul]
        exact mul_le_of_le_one_right (mul_nonneg ha hb) (by norm_num [ulpEps]))⟩

set_option maxRecDepth 100000 in
/-- C7 counterexample: for a 49 × 49 all-white source at size 16 in cover
mode, binary64 arithmetic gives `nw = int(49 * (16/49)) = 15 < 16`; the
center-crop window `(-1, -1, 15, 15)` extends past the 15 × 15 resampled
image, so the 16 × 16 output contains transparent crop-padding pixels — the
corner pixel is fully transparent while interior pixels are white. -/
theorem cover_padding_cex :
    (make_square doubleFM R0 img49 16 "cover").map
      (fun o => (o.width, o.height, o.pix 0 0, o.pix 1 1)) =
    .ok (16, 16, Pixel.clear, (⟨255, 255, 255, 255⟩ : Pixel)) := by
  rfl

/-- C7 (amended): in cover mode, *whenever* the truncated float products
satisfy `nw ≥ size` and `nh ≥ size`, every pixel of the returned
`size × size` image is a pixel of the resampled image — the center-crop
window lies entirely inside the resampled bounds, so no output pixel comes
from crop padding. Under real binary64 arithmetic the proviso can fail by one
pixel (49 × 49 at size 16 gives `nw = 15`), producing a one-pixel transparent
border on two sides. -/
theorem cover_no_padding (FM : FloatModel) (R : Resampler) (img : Img) (size : ℤ)
    (hw : 1 ≤ img.width) (hh : 1 ≤ img.height) (hs : 1 ≤ size)
    (hnw : size ≤ (cover_dims FM img.width img.height size).1)
    (hnh : size ≤ (cover_dims FM img.width img.height size).2) :
    ∃ rimg out, (img.convertRGBA).resizeE R (cover_dims FM img.width img.height size).1
        (cover_dims FM img.width img.height size).2 = .ok rimg ∧
      make_square FM R img size "cover" = .ok out ∧
      out.width = size.toNat ∧ out.height = size.toNat ∧
      ∀ i < size.toNat, ∀ j < size.toNat, ∃ si sj,
        si < rimg.width ∧ sj < rimg.height ∧ out.pix i j = rimg.pix si sj := by
  obtain ⟨rimg, hr, hrm, hrw, hrh, hge1, hge2, hEq⟩ :=
    coverE_ok FM R img size hw hh hs hnw hnh
  have hL0 : 0 ≤ Int.fdiv ((cover_dims FM img.width img.height size).1 - size) 2 :=
    fdiv_two_nonneg _ (by omega)
  have hLs : Int.fdiv ((cover_dims FM img.width img.height size).1 - size) 2 + size ≤
      (cover_dims FM img.width img.height size).1 := by
    have := fdiv_two_le ((cover_dims FM img.width img.height size).1 - size) (by omega)
    omega
  have hT0 : 0 ≤ Int.fdiv ((cover_dims FM img.width img.height size).2 - size) 2 :=
    fdiv_two_nonneg _ (by omega)
  have hTs : Int.fdiv ((cover_dims FM img.width img.height size).2 - size) 2 + size ≤
      (cover_dims FM img.width img.height size).2 := by
    have := fdiv_two_le ((cover_dims FM img.width img.height size).2 - size) (by omega)
    omega
  refine ⟨rimg, rimg.crop
      (Int.fdiv ((cover_dims FM img.width img.height size).1 - size) 2)
      (Int.fdiv ((cover_dims FM img.width img.height size).2 - size) 2)
      (Int.fdiv ((cover_dims FM img.width img.height size).1 - size) 2 + size)
      (Int.fdiv ((cover_dims FM img.width img.height size).2 - size) 2 + size),
    hr, ?_, ?_, ?_, ?_⟩
  · rw [make_square_cover, hEq]
  · rw [crop_width]; omega
  · rw [crop_height]; omega
  · intro i hi j hj
    refine ⟨(Int.fdiv ((cover_dims FM img.width img.height size).1 - size) 2 + (i : ℤ)).toNat,
      (Int.fdiv ((cover_dims FM img.width img.height size).2 - size) 2 + (j : ℤ)).toNat,
      by omega, by omega, ?_⟩
    simp only [Img.crop]
    rw [if_pos ⟨by omega, by omega, by omega, by omega⟩]

/-- C7 witness: the no-padding statement instantiated on the concrete 3 × 2
image at size 16 with the exact-rational float model, where the window-fit
proviso is provable. -/
theorem cover_no_padding_witness :
    1 ≤ imgW.width ∧ 1 ≤ imgW.height ∧ 1 ≤ (16 : ℤ) ∧
    (16 : ℤ) ≤ (cover_dims exactFM imgW.width imgW.height 16).1 ∧
    (16 : ℤ) ≤ (cover_dims exactFM imgW.width imgW.height 16).2 ∧
    ∃ rimg out, (imgW.convertRGBA).resizeE R0 (cover_dims exactFM imgW.width imgW.height 16).1
        (cover_dims exactFM imgW.width imgW.height 16).2 = .ok rimg ∧
      make_square exactFM R0 imgW 16 "cover" = .ok out ∧
      out.width = (16 : ℤ).toNat ∧ out.height = (16 : ℤ).toNat ∧
      ∀ i < (16 : ℤ).toNat, ∀ j < (16 : ℤ).toNat, ∃ si sj,
        si < rimg.width ∧ sj < rimg.height ∧ out.pix i j = rimg.pix si sj :=
  ⟨by decide, by decide, by decide,
    (cover_dims_ge imgW.width imgW.height 16 (by decide) (by decide) (by decide)).1,
    (cover_dims_ge imgW.width imgW.height 16 (by decide) (by decide) (by decide)).2.1,
    cover_no_padding exactFM R0 imgW 16 (by decide) (by decide) (by decide)
      (cover_dims_ge imgW.width imgW.height 16 (by decide) (by decide) (by decide)).1
      (cover_dims_ge imgW.width imgW.height 16 (by decide) (by decide) (by decide)).2.1⟩

lemma blankCanvas_mode (size : ℤ) : (blankCanvas size).mode = "RGBA" := rfl

lemma Img.ext1 : ∀ (x y : Img), x.width = y.width → x.height = y.height →
    x.mode = y.mode → x.pix = y.pix → x = y
  | ⟨_, _, _, _⟩, ⟨_, _, _, _⟩, rfl, rfl, rfl, rfl => rfl

lemma contain_on_square (FM : FloatModel) (R : Resampler) (c : Img) (size : ℤ)
    (hs : 1 ≤ size)
    (hcw : c.width = size.toNat) (hch : c.height = size.toNat)
    (hcm : c.mode = "RGBA") :
    make_square FM R c size "contain" = .ok ((blankCanvas size).paste c 0 0) := by
  rw [make_square_contain]
  simp only [containE]
  rw [convertRGBA_of_rgba c hcm]
  have hthumb : c.thumbnailE R size = .ok c := by
    simp only [Img.thumbnailE]
    rw [if_pos ⟨by omega, by omega⟩]
  rw [hthumb, exceptBind_ok]
  simp only [Image.new]
  rw [if_neg (by omega : ¬(size < 0 ∨ size < 0)), exceptBind_ok]
  have hx : Int.fdiv (size - (c.width : ℤ)) 2 = 0 := by
    rw [hcw, Int.toNat_of_nonneg (by omega), sub_self]
    decide
  have hy : Int.fdiv (size - (c.height : ℤ)) 2 = 0 := by
    rw [hch, Int.toNat_of_nonneg (by omega), sub_self]
    decide
  rw [hx, hy]
  rfl

lemma paste_outside_clear (t : Img) (size x y : ℤ)
    (hx : x + (t.width : ℤ) ≤ size) (hy : y + (t.height : ℤ) ≤ size) :
    ∀ i j, (size.toNat ≤ i ∨ size.toNat ≤ j) →
      ((blankCanvas size).paste t x y).pix i j = Pixel.clear := by
  intro i j hij
  simp only [Img.paste, blankCanvas]
  split
  · rename_i hcond
    exfalso
    omega
  · rfl

lemma paste_blank_self (c : Img) (size : ℤ) (hs : 1 ≤ size)
    (hcw : c.width = size.toNat) (hch : c.height = size.toNat)
    (hcm : c.mode = "RGBA")
    (hout : ∀ i j, (size.toNat ≤ i ∨ size.toNat ≤ j) → c.pix i j = Pixel.clear) :
    (blankCanvas size).paste c 0 0 = c := by
  apply Img.ext1
  · rw [paste_width, blankCanvas_width, hcw]
  · rw [paste_height, blankCanvas_height, hch]
  · rw [paste_mode, blankCanvas_mode]; exact hcm.symm
  · funext i j
    simp only [Img.paste, blankCanvas]
    split
    · rename_i hcond
      congr 1 <;> omega
    · rename_i hcond
      refine (hout i j ?_).symm
      omega

lemma paste_blank_equiv (c : Img) (size : ℤ)
    (hcw : c.width = size.toNat) (hch : c.height = size.toNat)
    (hcm : c.mode = "RGBA") :
    ((blankCanvas size).paste c 0 0).Equiv c := by
  refine ⟨by rw [paste_width, blankCanvas_width, hcw],
    by rw [paste_height, blankCanvas_height, hch],
    by rw [paste_mode, blankCanvas_mode]; exact hcm.symm, ?_⟩
  intro i hi j hj
  rw [paste_width, blankCanvas_width] at hi
  rw [paste_height, blankCanvas_height] at hj
  simp only [Img.paste, blankCanvas]
  rw [if_pos ⟨by omega, by omega, by omega, by omega⟩]
  congr 1 <;> omega

/-- C8: contain mode is idempotent: `make_square` applied a second time with
the same size to a contain-mode result returns that result exactly; moreover
any already `size × size` RGBA image round-trips to an observationally equal
image through the full pipeline. -/
theorem contain_idempotent (FM : FloatModel) (R : Resampler) (img : Img) (size : ℤ)
    (hw : 1 ≤ img.width) (hh : 1 ≤ img.height) (hs : 1 ≤ size) :
    (∃ a, make_square FM R img size "contain" = .ok a ∧
      make_square FM R a size "contain" = .ok a) ∧
    (∀ c : Img, c.width = size.toNat → c.height = size.toNat →
      c.mode = "RGBA" →
      ∃ b, make_square FM R c size "contain" = .ok b ∧ b.Equiv c) := by
  constructor
  · obtain ⟨t, ht, htm, hw1, hh1, hEq⟩ := containE_ok R img size hw hh hs
    refine ⟨(blankCanvas size).paste t (Int.fdiv (size - (t.width : ℤ)) 2)
        (Int.fdiv (size - (t.height : ℤ)) 2), ?_, ?_⟩
    · rw [make_square_contain]
      exact hEq
    · have hxb : Int.fdiv (size - (t.width : ℤ)) 2 + (t.width : ℤ) ≤ size := by
        have := fdiv_two_le (size - (t.width : ℤ)) (by omega)
        omega
      have hyb : Int.fdiv (size - (t.height : ℤ)) 2 + (t.height : ℤ) ≤ size := by
        have := fdiv_two_le (size - (t.height : ℤ)) (by omega)
        omega
      rw [contain_on_square FM R _ size hs (by rw [paste_width, blankCanvas_width])
        (by rw [paste_height, blankCanvas_height])
        (by rw [paste_mode, blankCanvas_mode]),
        paste_blank_self _ size hs (by rw [paste_width, blankCanvas_width])
          (by rw [paste_height, blankCanvas_height])
          (by rw [paste_mode, blankCanvas_mode])
          (paste_outside_clear t size _ _ hxb hyb)]
  · intro c hcw hch hcm
    exact ⟨(blankCanvas size).paste c 0 0, contain_on_square FM R c size hs hcw hch hcm,
      paste_blank_equiv c size hcw hch hcm⟩

/-- C8 witness: idempotence instantiated on the concrete 3 × 2 image at
size 16. -/
theorem contain_idempotent_witness :
    1 ≤ imgW.width ∧ 1 ≤ imgW.height ∧ 1 ≤ (16 : ℤ) ∧
    ((∃ a, make_square doubleFM R0 imgW 16 "contain" = .ok a ∧
       make_square doubleFM R0 a 16 "contain" = .ok a) ∧
     (∀ c : Img, c.width = (16 : ℤ).toNat → c.height = (16 : ℤ).toNat →
       c.mode = "RGBA" →
       ∃ b, make_square doubleFM R0 c 16 "contain" = .ok b ∧ b.Equiv c)) :=
  ⟨by decide, by decide, by decide,
    contain_idempotent doubleFM R0 imgW 16 (by decide) (by decide) (by decide)⟩

lemma getD_concat_self (l : List Img) (a d : Img) : (l ++ [a]).getD l.length d = a := by
  simp [List.getD]

lemma getD_set_self (l : List Img) (i : ℕ) (a d : Img) (h : i < l.length) :
    (l.set i a).getD i d = a := by
  simp [List.getD, List.getElem?_set, h]

lemma getD_append_left (l t : List Img) (i : ℕ) (d : Img) (h : i < l.length) :
    (l ++ t).getD i d = l.getD i d := by
  simp only [List.getD, List.get?_eq_getElem?]
  rw [List.getElem?_append, if_pos h]

lemma getD_set_ne (l : List Img) (i j : ℕ) (a d : Img) (h : i ≠ j) :
    (l.set i a).getD j d = l.getD j d := by
  simp only [List.getD, List.get?_eq_getElem?]
  rw [List.getElem?_set, if_neg h]

lemma getElem?_append_lt (l t : List Img) (i : ℕ) (h : i < l.length) :
    (l ++ t)[i]? = l[i]? := by
  rw [List.getElem?_append, if_pos h]

lemma getElem?_set_ne (l : List Img) (i j : ℕ) (a : Img) (h : i ≠ j) :
    (l.set i a)[j]? = l[j]? := by
  rw [List.getElem?_set, if_neg h]

lemma getD_shape1 (l : List Img) (a t c d : Img) :
    ((l ++ [a]).set l.length t ++ [c]).getD l.length d = t := by
  rw [getD_append_left _ _ _ _ (by simp), getD_set_self _ _ _ _ (by simp)]

lemma exceptBind_err {α β : Type} (e : PyErr) (f : α → Except PyErr β) :
    ((Except.error e : Except PyErr α) >>= f) = .error e := rfl

lemma containS_shape (R : Resampler) (s : Store) (ref : ℕ) (size : ℤ)
    (s' : Store) (out : ℕ) :
    containS R s ref size = .ok (s', out) →
    out = s.length + 1 ∧ s'.length = s.length + 2 ∧
    ∀ j, j < s.length → s'[j]? = s[j]? := by
  intro h
  simp only [containS, getD_concat_self] at h
  cases ht : (s.getD ref dfltImg).convertRGBA.thumbnailE R size with
  | error e =>
    rw [ht, exceptBind_err] at h
    exact Except.noConfusion h
  | ok t =>
    rw [ht, exceptBind_ok] at h
    simp only [Image.new] at h
    by_cases hbad : size < 0 ∨ size < 0
    · rw [if_pos hbad, exceptBind_err] at h
      exact Except.noConfusion h
    · rw [if_neg hbad, exceptBind_ok] at h
      simp only [pure_eq_ok] at h
      injection h with hp
      injection hp with hs' hout
      subst hs' hout
      refine ⟨by simp, by simp, ?_⟩
      intro j hj
      rw [getElem?_set_ne _ _ _ _ (by simp; omega),
        getElem?_append_lt _ _ _ (by simp; omega),
        getElem?_set_ne _ _ _ _ (by omega),
        getElem?_append_lt _ _ _ (by omega)]

lemma coverS_shape (FM : FloatModel) (R : Resampler) (s : Store) (ref : ℕ)
    (size : ℤ) (s' : Store) (out : ℕ) :
    coverS FM R s ref size = .ok (s', out) →
    out = s.length + 2 ∧ s'.length = s.length + 3 ∧
    ∀ j, j < s.length → s'[j]? = s[j]? := by
  intro h
  simp only [coverS, getD_concat_self] at h
  by_cases hz : (s.getD ref dfltImg).convertRGBA.width = 0 ∨
      (s.getD ref dfltImg).convertRGBA.height = 0
  · rw [if_pos hz] at h
    exact Except.noConfusion h
  · rw [if_neg hz] at h
    cases hr : (s.getD ref dfltImg).convertRGBA.resizeE R
        (cover_dims FM (s.getD ref dfltImg).convertRGBA.width
          (s.getD ref dfltImg).convertRGBA.height size).1
        (cover_dims FM (s.getD ref dfltImg).convertRGBA.width
          (s.getD ref dfltImg).convertRGBA.height size).2 with
    | error e =>
      rw [hr, exceptBind_err] at h
      exact Except.noConfusion h
    | ok rimg =>
      rw [hr, exceptBind_ok] at h
      simp only [pure_eq_ok] at h
      injection h with hp
      injection hp with hs' hout
      subst hs' hout
      refine ⟨by simp, by simp, ?_⟩
      intro j hj
      rw [getElem?_append_lt _ _ _ (by simp; omega),
        getElem?_append_lt _ _ _ (by simp; omega),
        getElem?_append_lt _ _ _ (by omega)]

/-- C9: in the store semantics, `make_square` never mutates its input slot:
the input lives at a valid slot, and whenever a call on the image held in
slot `ref` returns, that slot still holds the very same image, the result
lives in a freshly allocated slot distinct from `ref`, and overwriting the
result slot afterwards cannot change the input slot. -/
theorem make_square_no_mutation (FM : FloatModel) (R : Resampler) (s : Store)
    (ref : ℕ) (size : ℤ) (mode : String) (img0 : Img)
    (href : s[ref]? = some img0) :
    ref < s.length ∧
    ∀ s' out, makeSquareS FM R s ref size mode = .ok (s', out) →
      s.length ≤ out ∧ ref ≠ out ∧ s'[ref]? = some img0 ∧
      ∀ img2, (s'.set out img2)[ref]? = some img0 := by
  have hlt : ref < s.length := by
    by_contra hc
    rw [List.getElem?_eq_none (by omega)] at href
    exact Option.noConfusion href
  refine ⟨hlt, ?_⟩
  intro s' out hok
  rcases normMode_contain_or_cover mode with hm | hm
  · unfold makeSquareS at hok
    rw [hm, if_pos rfl] at hok
    obtain ⟨hout, hlen, hpres⟩ := containS_shape R s ref size s' out hok
    refine ⟨by omega, by omega, ?_, ?_⟩
    · rw [hpres ref hlt, href]
    · intro img2
      rw [getElem?_set_ne _ _ _ _ (by omega), hpres ref hlt, href]
  · unfold makeSquareS at hok
    rw [hm, if_neg (by decide : ¬("cover" : String) = "contain")] at hok
    obtain ⟨hout, hlen, hpres⟩ := coverS_shape FM R s ref size s' out hok
    refine ⟨by omega, by omega, ?_, ?_⟩
    · rw [hpres ref hlt, href]
    · intro img2
      rw [getElem?_set_ne _ _ _ _ (by omega), hpres ref hlt, href]

/-- C9 witness: the no-mutation statement instantiated on a singleton heap
holding the concrete 3 × 2 image, at size 16 in contain mode. -/
theorem make_square_no_mutation_witness :
    ([imgW] : Store)[0]? = some imgW ∧
    (0 < ([imgW] : Store).length ∧
     ∀ s' out, makeSquareS exactFM R0 [imgW] 0 16 "contain" = .ok (s', out) →
       ([imgW] : Store).length ≤ out ∧ 0 ≠ out ∧ s'[0]? = some imgW ∧
       ∀ img2, (s'.set out img2)[0]? = some imgW) :=
  ⟨rfl, make_square_no_mutation exactFM R0 [imgW] 0 16 "contain" imgW rfl⟩

lemma exceptMap_pure {α β : Type} (f : α → β) (a : α) :
    (Except.map f (pure a : Except PyErr α)) = pure (f a) := rfl

lemma runOut_containS (R : Resampler) (s : Store) (ref : ℕ) (size : ℤ) :
    runOut (containS R s ref size) = containE R (s.getD ref dfltImg) size := by
  simp only [containS, containE, runOut, getD_concat_self]
  cases ht : (s.getD ref dfltImg).convertRGBA.thumbnailE R size with
  | error e => rfl
  | ok t =>
    simp only [exceptBind_ok, Image.new]
    by_cases hbad : size < 0 ∨ size < 0
    · rw [if_pos hbad]
      rfl
    · rw [if_neg hbad]
      simp only [exceptBind_ok, getD_shape1, getD_concat_self, exceptMap_pure]
      rw [getD_set_self _ _ _ _ (by simp)]

lemma runOut_coverS (FM : FloatModel) (R : Resampler) (s : Store) (ref : ℕ)
    (size : ℤ) :
    runOut (coverS FM R s ref size) = coverE FM R (s.getD ref dfltImg) size := by
  simp only [coverS, coverE, runOut, getD_concat_self]
  by_cases hz : (s.getD ref dfltImg).convertRGBA.width = 0 ∨
      (s.getD ref dfltImg).convertRGBA.height = 0
  · rw [if_pos hz, if_pos hz]
    rfl
  · rw [if_neg hz, if_neg hz]
    cases hr : Img.resizeE R (s.getD ref dfltImg).convertRGBA
        (cover_dims FM (s.getD ref dfltImg).convertRGBA.width
          (s.getD ref dfltImg).convertRGBA.height size).1
        (cover_dims FM (s.getD ref dfltImg).convertRGBA.width
          (s.getD ref dfltImg).convertRGBA.height size).2 with
    | error e => rfl
    | ok rimg =>
      simp only [exceptBind_ok, getD_concat_self, exceptMap_pure]

lemma runOut_makeSquareS (FM : FloatModel) (R : Resampler) (s : Store)
    (ref : ℕ) (size : ℤ) (mode : String) :
    runOut (makeSquareS FM R s ref size mode) =
      make_square FM R (s.getD ref dfltImg) size mode := by
  unfold makeSquareS make_square
  by_cases hm : normMode mode = "contain"
  · rw [if_pos hm, if_pos hm]
    exact runOut_containS R s ref size
  · rw [if_neg hm, if_neg hm]
    exact runOut_coverS FM R s ref size

/-- C10: `make_square` is deterministic: two store-level calls on the same
image, placed at arbitrary slots of arbitrary heaps, return identical output
images, both equal to the pure function of (image, size, mode) alone. -/
theorem make_square_deterministic (FM : FloatModel) (R : Resampler)
    (sA sB : Store) (rA rB : ℕ) (size : ℤ) (mode : String) (img0 : Img)
    (hA : sA[rA]? = some img0) (hB : sB[rB]? = some img0) :
    runOut (makeSquareS FM R sA rA size mode) =
      runOut (makeSquareS FM R sB rB size mode) ∧
    runOut (makeSquareS FM R sA rA size mode) =
      make_square FM R img0 size mode := by
  have h1 : sA.getD rA dfltImg = img0 := by
    simp [List.getD, List.get?_eq_getElem?, hA]
  have h2 : sB.getD rB dfltImg = img0 := by
    simp [List.getD, List.get?_eq_getElem?, hB]
  rw [runOut_makeSquareS, runOut_makeSquareS, h1, h2]
  exact ⟨rfl, rfl⟩

/-- C10 witness: determinism instantiated with the concrete 3 × 2 image held
at slot 0 of a singleton heap and at slot 1 of a two-slot heap. -/
theorem make_square_deterministic_witness :
    ([imgW] : Store)[0]? = some imgW ∧
    ([dfltImg, imgW] : Store)[1]? = some imgW ∧
    (runOut (makeSquareS exactFM R0 [imgW] 0 16 "contain") =
      runOut (makeSquareS exactFM R0 [dfltImg, imgW] 1 16 "contain") ∧
     runOut (makeSquareS exactFM R0 [imgW] 0 16 "contain") =
      make_square exactFM R0 imgW 16 "contain") :=
  ⟨rfl, rfl,
    make_square_deterministic exactFM R0 [imgW] [dfltImg, imgW] 0 1 16 "contain"
      imgW rfl rfl⟩
